import Mathlib

/-!
Verification development for the danish-dictionary-parser repository.

This file gives a shallow embedding of the core of the program:
the text-state machine (`src/walk_text.rs`, `src/text_parser.rs`),
the font resolver and string decoder (`src/decode_pdf_string.rs`),
the line assembler (`src/main.rs`), and the entry-grammar driver and
correction table (`src/parse_dictionary.rs`), together with theorems
checking the specification's claims against the embedded code.

Machine floats (`f32`) are embedded as rationals: every coefficient and
threshold appearing in the program and in the claims (8.0, 50.0, 70.5, ...,
small integer matrix entries) is exactly representable in `f32`, and the
arithmetic performed on them here (additions, comparisons, products of
small integers) is exact in `f32`, so the `ℚ` model agrees with the code.
-/

namespace DanishDict

/-- Row-major 3×3 matrix over `ℚ`, embedding nalgebra's `Matrix3<f32>`
(`Matrix3::new` takes its nine arguments row-major). -/
structure Mat3 where
  m11 : ℚ
  m12 : ℚ
  m13 : ℚ
  m21 : ℚ
  m22 : ℚ
  m23 : ℚ
  m31 : ℚ
  m32 : ℚ
  m33 : ℚ
  deriving DecidableEq

/-- Matrix product, row-major. -/
def Mat3.mul (A B : Mat3) : Mat3 where
  m11 := A.m11 * B.m11 + A.m12 * B.m21 + A.m13 * B.m31
  m12 := A.m11 * B.m12 + A.m12 * B.m22 + A.m13 * B.m32
  m13 := A.m11 * B.m13 + A.m12 * B.m23 + A.m13 * B.m33
  m21 := A.m21 * B.m11 + A.m22 * B.m21 + A.m23 * B.m31
  m22 := A.m21 * B.m12 + A.m22 * B.m22 + A.m23 * B.m32
  m23 := A.m21 * B.m13 + A.m22 * B.m23 + A.m23 * B.m33
  m31 := A.m31 * B.m11 + A.m32 * B.m21 + A.m33 * B.m31
  m32 := A.m31 * B.m12 + A.m32 * B.m22 + A.m33 * B.m32
  m33 := A.m31 * B.m13 + A.m32 * B.m23 + A.m33 * B.m33

/-- Identity matrix (`Matrix3::identity`). -/
def Mat3.identity : Mat3 := ⟨1, 0, 0, 0, 1, 0, 0, 0, 1⟩

/-- Embedding of `pdf::content::Point`. -/
structure Point where
  x : ℚ
  y : ℚ
  deriving DecidableEq

/-- Embedding of `pdf::content::Matrix` (the six coefficients of a `Tm`
operator). -/
structure Matrix where
  a : ℚ
  b : ℚ
  c : ℚ
  d : ℚ
  e : ℚ
  f : ℚ
  deriving DecidableEq

/-- Embedding of `TextMatrices` from `src/text_parser.rs`. -/
structure TextMatrices where
  text_matrix : Mat3
  text_line_matrix : Mat3
  deriving DecidableEq

/-- `TextMatrices::default`: both transforms are the identity. -/
def TextMatrices.default : TextMatrices := ⟨Mat3.identity, Mat3.identity⟩

/-- `TextMatrices::next_line` from `src/text_parser.rs`: left-multiplies the
text line matrix by the translation `Matrix3::new(1,0,0, 0,1,0, t.x,t.y,1)`
and copies it into the text matrix. -/
def TextMatrices.next_line (s : TextMatrices) (t : Point) : TextMatrices :=
  let tlm := (Mat3.mk 1 0 0 0 1 0 t.x t.y 1).mul s.text_line_matrix
  ⟨tlm, tlm⟩

/-- `TextMatrices::set_matrix` from `src/text_parser.rs`: replaces both
matrices by `Matrix3::new(m.a,m.b,0, m.c,m.d,0, m.e,m.f,1)`. -/
def TextMatrices.set_matrix (s : TextMatrices) (m : Matrix) : TextMatrices :=
  let tlm := Mat3.mk m.a m.b 0 m.c m.d 0 m.e m.f 1
  ⟨tlm, tlm⟩

/-- Modelled from the spec: `TextMatrices::coordinates` is called by
`src/walk_text.rs` and `src/main.rs` but its definition is not among the
provided sources.  Per the spec (§3, §8), a text-draw event's position is the
(x, y) translation component of the current text matrix: after
`move-text-position(10,700)` from identity the position is `(10,700)`.
In the row-vector convention used by `next_line`/`set_matrix` the translation
sits in the third row of the text matrix. -/
def TextMatrices.coordinates (s : TextMatrices) : Point :=
  ⟨s.text_matrix.m31, s.text_matrix.m32⟩

/-- Embedding of `pdf::content::TextMode`. -/
inductive TextMode
  | fill
  | stroke
  | fillThenStroke
  | invisible
  | fillAndClip
  | strokeAndClip
  | fillStrokeAndClip
  | clip
  deriving DecidableEq

/-- Font keys (`pdf::primitive::Name`). -/
abbrev Name := String

/-- Raw string bytes (`pdf::primitive::PdfString`). -/
abbrev PdfString := List Nat

/-- Embedding of `TextStateParams` from `src/text_parser.rs`. -/
structure TextStateParams where
  character_spacing : ℚ
  word_spacing : ℚ
  horizontal_scaling : ℚ
  leading : ℚ
  font : Option (Name × ℚ)
  rendering_mode : TextMode
  rise : ℚ
  deriving DecidableEq

/-- `TextStateParams::default` from `src/text_parser.rs`. -/
def TextStateParams.default : TextStateParams :=
  { character_spacing := 0
    word_spacing := 0
    horizontal_scaling := 100
    leading := 0
    font := none
    rendering_mode := .fill
    rise := 0 }

/-- Embedding of `pdf::content::TextDrawAdjusted`: an element of a `TJ`
array is either a string or a numeric spacing adjustment. -/
inductive TextDrawAdjusted
  | text (s : PdfString)
  | spacing (adj : ℚ)
  deriving DecidableEq

/-- Embedding of the `pdf::content::Op` constructors that
`ForEachText::next` in `src/walk_text.rs` dispatches on; every other
operator kind falls into the `_ => {}` arm and is collapsed into `other`. -/
inductive Op
  | charSpacing (char_space : ℚ)
  | wordSpacing (word_space : ℚ)
  | textScaling (horiz_scale : ℚ)
  | leading (leading : ℚ)
  | textFont (name : Name) (size : ℚ)
  | textRenderMode (mode : TextMode)
  | textRise (rise : ℚ)
  | beginText
  | endText
  | moveTextPosition (translation : Point)
  | setTextMatrix (matrix : Matrix)
  | textDraw (text : PdfString)
  | textDrawAdjusted (array : List TextDrawAdjusted)
  | other
  deriving DecidableEq

/-- The text-state errors raised by `ForEachText::next` in
`src/walk_text.rs` (the spec groups all four under `TextStateError`). -/
inductive TextStateError
  | btNotPresentBeforeTd
  | btNotPresentBeforeTm
  | btNotPresentBeforeTj
  | tfNotPresentBeforeTj
  deriving DecidableEq

/-- Embedding of `TextEntry` from `src/walk_text.rs`. -/
structure TextEntry where
  positions : TextMatrices
  font : Name
  text : PdfString
  deriving DecidableEq

/-- Embedding of the `ForEachText` iterator state from `src/walk_text.rs`. -/
structure ForEachText where
  operations : List Op
  params : TextStateParams
  positions : Option TextMatrices
  text_draw_adjusted_array : Option (TextMatrices × Name × List TextDrawAdjusted)
  deriving DecidableEq

/-- The `for a in array { if let Text(text) = a { return ... } }` scan inside
`ForEachText::next`: find the first string element of a `TJ` array, returning
it together with the remaining elements. -/
def findText : List TextDrawAdjusted → Option (PdfString × List TextDrawAdjusted)
  | [] => none
  | .text t :: rest => some (t, rest)
  | .spacing _ :: rest => findText rest

/-- The operator loop of `ForEachText::next` from `src/walk_text.rs`:
consumes operators until one item (event or error) is produced, returning the
item and the successor iterator state, or `none` when the operators are
exhausted. -/
def nextOps : TextStateParams → Option TextMatrices → List Op →
    Option (Except TextStateError TextEntry × ForEachText)
  | _, _, [] => none
  | params, positions, op :: rest =>
    match op with
    | .charSpacing v => nextOps { params with character_spacing := v } positions rest
    | .wordSpacing v => nextOps { params with word_spacing := v } positions rest
    | .textScaling v => nextOps { params with horizontal_scaling := v } positions rest
    | .leading v => nextOps { params with leading := v } positions rest
    | .textFont n sz => nextOps { params with font := some (n, sz) } positions rest
    | .textRenderMode m => nextOps { params with rendering_mode := m } positions rest
    | .textRise v => nextOps { params with rise := v } positions rest
    | .beginText => nextOps params (some TextMatrices.default) rest
    | .endText => nextOps params none rest
    | .moveTextPosition t =>
      match positions with
      | none => some (.error .btNotPresentBeforeTd, ⟨rest, params, none, none⟩)
      | some e => nextOps params (some (e.next_line t)) rest
    | .setTextMatrix m =>
      match positions with
      | none => some (.error .btNotPresentBeforeTm, ⟨rest, params, none, none⟩)
      | some e => nextOps params (some (e.set_matrix m)) rest
    | .textDraw text =>
      match positions with
      | none => some (.error .btNotPresentBeforeTj, ⟨rest, params, none, none⟩)
      | some p =>
        match params.font with
        | none => some (.error .tfNotPresentBeforeTj, ⟨rest, params, some p, none⟩)
        | some (f, _) => some (.ok ⟨p, f, text⟩, ⟨rest, params, some p, none⟩)
    | .textDrawAdjusted array =>
      match positions with
      | none => some (.error .btNotPresentBeforeTj, ⟨rest, params, none, none⟩)
      | some p =>
        match params.font with
        | none => some (.error .tfNotPresentBeforeTj, ⟨rest, params, some p, none⟩)
        | some (f, _) =>
          match findText array with
          | some (t, arr2) => some (.ok ⟨p, f, t⟩, ⟨rest, params, some p, some (p, f, arr2)⟩)
          | none => nextOps params (some p) rest
    | .other => nextOps params positions rest

/-- `ForEachText::next` from `src/walk_text.rs`: first drain the pending
adjusted-draw array (each string element yields an event carrying the frozen
position snapshot), then run the operator loop. -/
def ForEachText.next (s : ForEachText) : Option (Except TextStateError TextEntry × ForEachText) :=
  match s.text_draw_adjusted_array with
  | some (p, f, arr) =>
    match findText arr with
    | some (t, arr2) =>
      some (.ok ⟨p, f, t⟩, { s with text_draw_adjusted_array := some (p, f, arr2) })
    | none => nextOps s.params s.positions s.operations
  | none => nextOps s.params s.positions s.operations

/-- Termination weight of one operator: a `TJ` operator hides as many
pending iterator steps as its array has elements. -/
def opWeight : Op → ℕ
  | .textDrawAdjusted arr => arr.length + 1
  | _ => 1

/-- Termination weight of an operator list. -/
def opsWeight (l : List Op) : ℕ := (l.map opWeight).sum

/-- Number of pending adjusted-array elements of an iterator state. -/
def tdaaLen (s : ForEachText) : ℕ :=
  match s.text_draw_adjusted_array with
  | none => 0
  | some (_, _, arr) => arr.length

/-- Termination measure for draining the iterator. -/
def ForEachText.size (s : ForEachText) : ℕ := opsWeight s.operations + tdaaLen s

theorem findText_length {arr : List TextDrawAdjusted} {t rest}
    (h : findText arr = some (t, rest)) : rest.length < arr.length := by
  induction arr with
  | nil => simp [findText] at h
  | cons a arr ih =>
    cases a with
    | text s =>
      simp only [findText] at h
      cases h
      simp
    | spacing adj =>
      simp only [findText] at h
      exact Nat.lt_trans (ih h) (by simp)

theorem opsWeight_cons (op : Op) (rest : List Op) :
    opsWeight (op :: rest) = opWeight op + opsWeight rest := by
  simp [opsWeight]

theorem nextOps_size : ∀ (ops : List Op) {params positions x},
    nextOps params positions ops = some x →
    opsWeight x.2.operations + tdaaLen x.2 < opsWeight ops := by
  intro ops
  induction ops with
  | nil => intro params positions x h; simp [nextOps] at h
  | cons op rest ih =>
    intro params positions x h
    rw [opsWeight_cons]
    cases op with
    | charSpacing v => exact lt_of_lt_of_le (ih h) (Nat.le_add_left _ _)
    | wordSpacing v => exact lt_of_lt_of_le (ih h) (Nat.le_add_left _ _)
    | textScaling v => exact lt_of_lt_of_le (ih h) (Nat.le_add_left _ _)
    | leading v => exact lt_of_lt_of_le (ih h) (Nat.le_add_left _ _)
    | textFont n sz => exact lt_of_lt_of_le (ih h) (Nat.le_add_left _ _)
    | textRenderMode m => exact lt_of_lt_of_le (ih h) (Nat.le_add_left _ _)
    | textRise v => exact lt_of_lt_of_le (ih h) (Nat.le_add_left _ _)
    | beginText => exact lt_of_lt_of_le (ih h) (Nat.le_add_left _ _)
    | endText => exact lt_of_lt_of_le (ih h) (Nat.le_add_left _ _)
    | other => exact lt_of_lt_of_le (ih h) (Nat.le_add_left _ _)
    | moveTextPosition t =>
      cases positions with
      | none =>
        simp only [nextOps] at h
        cases h
        simp [opWeight, tdaaLen]
      | some e => exact lt_of_lt_of_le (ih h) (Nat.le_add_left _ _)
    | setTextMatrix m =>
      cases positions with
      | none =>
        simp only [nextOps] at h
        cases h
        simp [opWeight, tdaaLen]
      | some e => exact lt_of_lt_of_le (ih h) (Nat.le_add_left _ _)
    | textDraw text =>
      cases positions with
      | none =>
        simp only [nextOps] at h
        cases h
        simp [opWeight, tdaaLen]
      | some p =>
        simp only [nextOps] at h
        split at h <;>
          · cases h
            simp [opWeight, tdaaLen]
    | textDrawAdjusted array =>
      cases positions with
      | none =>
        simp only [nextOps] at h
        cases h
        simp [opWeight, tdaaLen]
      | some p =>
        simp only [nextOps] at h
        split at h
        · cases h
          simp [opWeight, tdaaLen]
        · split at h
          · rename_i t arr2 hft
            cases h
            have := findText_length hft
            simp [opWeight, tdaaLen]
            omega
          · exact lt_of_lt_of_le (ih h) (Nat.le_add_left _ _)

theorem next_size {s : ForEachText} {x} (h : s.next = some x) :
    x.2.size < s.size := by
  rcases s with ⟨ops, params, positions, tdaa⟩
  cases tdaa with
  | none =>
    simp only [ForEachText.next] at h
    have h1 := nextOps_size ops h
    have h2 : tdaaLen ⟨ops, params, positions, none⟩ = 0 := rfl
    simp only [ForEachText.size]
    omega
  | some pfa =>
    rcases pfa with ⟨p, f, arr⟩
    simp only [ForEachText.next] at h
    have h2 : tdaaLen ⟨ops, params, positions, some (p, f, arr)⟩ = arr.length := rfl
    rcases hft : findText arr with - | ⟨t, arr2⟩
    · rw [hft] at h
      have h1 := nextOps_size ops h
      simp only [ForEachText.size]
      omega
    · rw [hft] at h
      cases h
      have h1 := findText_length hft
      have h3 : tdaaLen ⟨ops, params, positions, some (p, f, arr2)⟩ = arr2.length := rfl
      simp only [ForEachText.size]
      omega

/-- Full consumption of the `ForEachText` iterator: the sequence of
`Result<TextEntry>` items that `ForEachText::next` yields until exhaustion. -/
def drain (s : ForEachText) : List (Except TextStateError TextEntry) :=
  match h : s.next with
  | none => []
  | some x => x.1 :: drain x.2
termination_by s.size
decreasing_by exact next_size h

/-- `each_text` from `src/walk_text.rs`: the starting iterator state for a
page's operator list (default text-state parameters, no position state, no
pending adjusted array). -/
def each_text (ops : List Op) : ForEachText :=
  ⟨ops, TextStateParams.default, none, none⟩

theorem drain_next_none {s : ForEachText} (h : s.next = none) : drain s = [] := by
  unfold drain
  rw [h]

theorem drain_next_some {s : ForEachText} {i : Except TextStateError TextEntry}
    {s2 : ForEachText} (h : s.next = some (i, s2)) :
    drain s = i :: drain s2 := by
  conv_lhs => unfold drain
  rw [h]

theorem drain_congr {s s' : ForEachText} (h : s.next = s'.next) :
    drain s = drain s' := by
  rcases hx : s.next with - | ⟨i, s2⟩
  · have hx' : s'.next = none := by rw [← h, hx]
    rw [drain_next_none hx, drain_next_none hx']
  · have hx' : s'.next = some (i, s2) := by rw [← h, hx]
    rw [drain_next_some hx, drain_next_some hx']

/-- The events that a `TJ` (adjusted show-text) array contributes: one per
string sub-element, each carrying the frozen position snapshot `p` and font
`f`; numeric spacing sub-elements contribute nothing. -/
def adjustedEvents (p : TextMatrices) (f : Name) (arr : List TextDrawAdjusted) :
    List (Except TextStateError TextEntry) :=
  arr.filterMap fun el =>
    match el with
    | .text t => some (.ok ⟨p, f, t⟩)
    | .spacing _ => none

theorem adjustedEvents_nil (p : TextMatrices) (f : Name) : adjustedEvents p f [] = [] := rfl

theorem adjustedEvents_text (p : TextMatrices) (f : Name) (t : PdfString)
    (arr : List TextDrawAdjusted) :
    adjustedEvents p f (.text t :: arr) = .ok ⟨p, f, t⟩ :: adjustedEvents p f arr := rfl

theorem adjustedEvents_spacing (p : TextMatrices) (f : Name) (a : ℚ)
    (arr : List TextDrawAdjusted) :
    adjustedEvents p f (.spacing a :: arr) = adjustedEvents p f arr := rfl

theorem adjustedEvents_of_findText_none {arr : List TextDrawAdjusted}
    (h : findText arr = none) (p : TextMatrices) (f : Name) :
    adjustedEvents p f arr = [] := by
  induction arr with
  | nil => rfl
  | cons a arr ih =>
    cases a with
    | text t => simp [findText] at h
    | spacing adj =>
      rw [adjustedEvents_spacing]
      exact ih h

theorem adjustedEvents_of_findText_some {arr : List TextDrawAdjusted} {t arr2}
    (h : findText arr = some (t, arr2)) (p : TextMatrices) (f : Name) :
    adjustedEvents p f arr = .ok ⟨p, f, t⟩ :: adjustedEvents p f arr2 := by
  induction arr with
  | nil => simp [findText] at h
  | cons a arr ih =>
    cases a with
    | text s =>
      simp only [findText] at h
      cases h
      rfl
    | spacing adj =>
      simp only [findText] at h
      rw [adjustedEvents_spacing]
      exact ih h

theorem drain_pending (arr : List TextDrawAdjusted) (ops : List Op)
    (params : TextStateParams) (pos : Option TextMatrices) (p : TextMatrices) (f : Name) :
    drain ⟨ops, params, pos, some (p, f, arr)⟩ =
      adjustedEvents p f arr ++ drain ⟨ops, params, pos, none⟩ := by
  induction arr with
  | nil =>
    rw [adjustedEvents_nil, List.nil_append]
    exact drain_congr rfl
  | cons a arr ih =>
    cases a with
    | text t =>
      rw [adjustedEvents_text, List.cons_append, ← ih]
      exact drain_next_some rfl
    | spacing adj =>
      rw [adjustedEvents_spacing, ← ih]
      exact drain_congr rfl

theorem drain_nil (params : TextStateParams) (pos : Option TextMatrices) :
    drain ⟨[], params, pos, none⟩ = [] :=
  drain_next_none rfl

theorem drain_charSpacing (v : ℚ) (ops : List Op) (params : TextStateParams)
    (pos : Option TextMatrices) :
    drain ⟨.charSpacing v :: ops, params, pos, none⟩ =
      drain ⟨ops, { params with character_spacing := v }, pos, none⟩ :=
  drain_congr rfl

theorem drain_wordSpacing (v : ℚ) (ops : List Op) (params : TextStateParams)
    (pos : Option TextMatrices) :
    drain ⟨.wordSpacing v :: ops, params, pos, none⟩ =
      drain ⟨ops, { params with word_spacing := v }, pos, none⟩ :=
  drain_congr rfl

theorem drain_textScaling (v : ℚ) (ops : List Op) (params : TextStateParams)
    (pos : Option TextMatrices) :
    drain ⟨.textScaling v :: ops, params, pos, none⟩ =
      drain ⟨ops, { params with horizontal_scaling := v }, pos, none⟩ :=
  drain_congr rfl

theorem drain_leading (v : ℚ) (ops : List Op) (params : TextStateParams)
    (pos : Option TextMatrices) :
    drain ⟨.leading v :: ops, params, pos, none⟩ =
      drain ⟨ops, { params with leading := v }, pos, none⟩ :=
  drain_congr rfl

theorem drain_textFont (n : Name) (sz : ℚ) (ops : List Op) (params : TextStateParams)
    (pos : Option TextMatrices) :
    drain ⟨.textFont n sz :: ops, params, pos, none⟩ =
      drain ⟨ops, { params with font := some (n, sz) }, pos, none⟩ :=
  drain_congr rfl

theorem drain_textRenderMode (m : TextMode) (ops : List Op) (params : TextStateParams)
    (pos : Option TextMatrices) :
    drain ⟨.textRenderMode m :: ops, params, pos, none⟩ =
      drain ⟨ops, { params with rendering_mode := m }, pos, none⟩ :=
  drain_congr rfl

theorem drain_textRise (v : ℚ) (ops : List Op) (params : TextStateParams)
    (pos : Option TextMatrices) :
    drain ⟨.textRise v :: ops, params, pos, none⟩ =
      drain ⟨ops, { params with rise := v }, pos, none⟩ :=
  drain_congr rfl

theorem drain_beginText (ops : List Op) (params : TextStateParams)
    (pos : Option TextMatrices) :
    drain ⟨.beginText :: ops, params, pos, none⟩ =
      drain ⟨ops, params, some TextMatrices.default, none⟩ :=
  drain_congr rfl

theorem drain_endText (ops : List Op) (params : TextStateParams)
    (pos : Option TextMatrices) :
    drain ⟨.endText :: ops, params, pos, none⟩ =
      drain ⟨ops, params, none, none⟩ :=
  drain_congr rfl

theorem drain_other (ops : List Op) (params : TextStateParams)
    (pos : Option TextMatrices) :
    drain ⟨.other :: ops, params, pos, none⟩ =
      drain ⟨ops, params, pos, none⟩ :=
  drain_congr rfl

theorem drain_move_noPos (t : Point) (ops : List Op) (params : TextStateParams) :
    drain ⟨.moveTextPosition t :: ops, params, none, none⟩ =
      .error .btNotPresentBeforeTd :: drain ⟨ops, params, none, none⟩ :=
  drain_next_some rfl

theorem drain_move_pos (t : Point) (ops : List Op) (params : TextStateParams)
    (e : TextMatrices) :
    drain ⟨.moveTextPosition t :: ops, params, some e, none⟩ =
      drain ⟨ops, params, some (e.next_line t), none⟩ :=
  drain_congr rfl

theorem drain_setMatrix_noPos (m : Matrix) (ops : List Op) (params : TextStateParams) :
    drain ⟨.setTextMatrix m :: ops, params, none, none⟩ =
      .error .btNotPresentBeforeTm :: drain ⟨ops, params, none, none⟩ :=
  drain_next_some rfl

theorem drain_setMatrix_pos (m : Matrix) (ops : List Op) (params : TextStateParams)
    (e : TextMatrices) :
    drain ⟨.setTextMatrix m :: ops, params, some e, none⟩ =
      drain ⟨ops, params, some (e.set_matrix m), none⟩ :=
  drain_congr rfl

theorem drain_textDraw_noPos (text : PdfString) (ops : List Op) (params : TextStateParams) :
    drain ⟨.textDraw text :: ops, params, none, none⟩ =
      .error .btNotPresentBeforeTj :: drain ⟨ops, params, none, none⟩ :=
  drain_next_some rfl

theorem drain_textDraw_noFont {params : TextStateParams} (hfont : params.font = none)
    (text : PdfString) (ops : List Op) (p : TextMatrices) :
    drain ⟨.textDraw text :: ops, params, some p, none⟩ =
      .error .tfNotPresentBeforeTj :: drain ⟨ops, params, some p, none⟩ := by
  rcases params with ⟨cs, ws, hs, ld, fnt, rm, rs⟩
  cases fnt with
  | none => exact drain_next_some rfl
  | some fsz => simp [TextStateParams.font] at hfont

theorem drain_textDraw_font {params : TextStateParams} {f : Name} {sz : ℚ}
    (hfont : params.font = some (f, sz))
    (text : PdfString) (ops : List Op) (p : TextMatrices) :
    drain ⟨.textDraw text :: ops, params, some p, none⟩ =
      .ok ⟨p, f, text⟩ :: drain ⟨ops, params, some p, none⟩ := by
  rcases params with ⟨cs, ws, hs, ld, fnt, rm, rs⟩
  cases fnt with
  | none => simp [TextStateParams.font] at hfont
  | some fsz =>
    rcases fsz with ⟨f', sz'⟩
    have hp : f' = f ∧ sz' = sz := by
      have := hfont
      simp only [TextStateParams.font, Option.some.injEq, Prod.mk.injEq] at this
      exact this
    rcases hp with ⟨rfl, rfl⟩
    exact drain_next_some rfl

theorem drain_tdaa_noPos (arr : List TextDrawAdjusted) (ops : List Op)
    (params : TextStateParams) :
    drain ⟨.textDrawAdjusted arr :: ops, params, none, none⟩ =
      .error .btNotPresentBeforeTj :: drain ⟨ops, params, none, none⟩ :=
  drain_next_some rfl

theorem drain_tdaa_noFont {params : TextStateParams} (hfont : params.font = none)
    (arr : List TextDrawAdjusted) (ops : List Op) (p : TextMatrices) :
    drain ⟨.textDrawAdjusted arr :: ops, params, some p, none⟩ =
      .error .tfNotPresentBeforeTj :: drain ⟨ops, params, some p, none⟩ := by
  rcases params with ⟨cs, ws, hs, ld, fnt, rm, rs⟩
  cases fnt with
  | none => exact drain_next_some rfl
  | some fsz => simp [TextStateParams.font] at hfont

theorem drain_tdaa_font {params : TextStateParams} {f : Name} {sz : ℚ}
    (hfont : params.font = some (f, sz))
    (arr : List TextDrawAdjusted) (ops : List Op) (p : TextMatrices) :
    drain ⟨.textDrawAdjusted arr :: ops, params, some p, none⟩ =
      adjustedEvents p f arr ++ drain ⟨ops, params, some p, none⟩ := by
  rcases params with ⟨cs, ws, hs, ld, fnt, rm, rs⟩
  cases fnt with
  | none => simp [TextStateParams.font] at hfont
  | some fsz =>
    rcases fsz with ⟨f', sz'⟩
    have hp : f' = f ∧ sz' = sz := by
      have := hfont
      simp only [TextStateParams.font, Option.some.injEq, Prod.mk.injEq] at this
      exact this
    rcases hp with ⟨rfl, rfl⟩
    rcases hft : findText arr with - | ⟨t, arr2⟩
    · rw [adjustedEvents_of_findText_none hft, List.nil_append]
      exact drain_congr (by simp only [ForEachText.next, nextOps, hft])
    · rw [adjustedEvents_of_findText_some hft, List.cons_append, ← drain_pending]
      refine drain_next_some ?_
      simp only [ForEachText.next, nextOps, hft]

/-- The text-state parameters and position state the iterator holds after all
operators of a list have been consumed (the iterator keeps going after each
yielded event or error, so the state evolves exactly by the updates of
`ForEachText::next`, one per operator). -/
def stateAfter : TextStateParams → Option TextMatrices → List Op →
    TextStateParams × Option TextMatrices
  | params, positions, [] => (params, positions)
  | params, positions, op :: rest =>
    match op with
    | .charSpacing v => stateAfter { params with character_spacing := v } positions rest
    | .wordSpacing v => stateAfter { params with word_spacing := v } positions rest
    | .textScaling v => stateAfter { params with horizontal_scaling := v } positions rest
    | .leading v => stateAfter { params with leading := v } positions rest
    | .textFont n sz => stateAfter { params with font := some (n, sz) } positions rest
    | .textRenderMode m => stateAfter { params with rendering_mode := m } positions rest
    | .textRise v => stateAfter { params with rise := v } positions rest
    | .beginText => stateAfter params (some TextMatrices.default) rest
    | .endText => stateAfter params none rest
    | .moveTextPosition t =>
      match positions with
      | none => stateAfter params none rest
      | some e => stateAfter params (some (e.next_line t)) rest
    | .setTextMatrix m =>
      match positions with
      | none => stateAfter params none rest
      | some e => stateAfter params (some (e.set_matrix m)) rest
    | .textDraw _ => stateAfter params positions rest
    | .textDrawAdjusted _ => stateAfter params positions rest
    | .other => stateAfter params positions rest

theorem drain_append : ∀ (l1 : List Op) (params : TextStateParams)
    (positions : Option TextMatrices) (l2 : List Op),
    drain ⟨l1 ++ l2, params, positions, none⟩ =
      drain ⟨l1, params, positions, none⟩ ++
        drain ⟨l2, (stateAfter params positions l1).1, (stateAfter params positions l1).2, none⟩ := by
  intro l1
  induction l1 with
  | nil =>
    intro params positions l2
    rw [List.nil_append, drain_nil, List.nil_append]
    rfl
  | cons op t ih =>
    intro params positions l2
    rw [List.cons_append]
    cases op with
    | charSpacing v => rw [drain_charSpacing, drain_charSpacing]; exact ih _ _ _
    | wordSpacing v => rw [drain_wordSpacing, drain_wordSpacing]; exact ih _ _ _
    | textScaling v => rw [drain_textScaling, drain_textScaling]; exact ih _ _ _
    | leading v => rw [drain_leading, drain_leading]; exact ih _ _ _
    | textFont n sz => rw [drain_textFont, drain_textFont]; exact ih _ _ _
    | textRenderMode m => rw [drain_textRenderMode, drain_textRenderMode]; exact ih _ _ _
    | textRise v => rw [drain_textRise, drain_textRise]; exact ih _ _ _
    | beginText => rw [drain_beginText, drain_beginText]; exact ih _ _ _
    | endText => rw [drain_endText, drain_endText]; exact ih _ _ _
    | other => rw [drain_other, drain_other]; exact ih _ _ _
    | moveTextPosition tr =>
      cases positions with
      | none =>
        rw [drain_move_noPos, drain_move_noPos, List.cons_append]
        exact congrArg _ (ih _ _ _)
      | some e => rw [drain_move_pos, drain_move_pos]; exact ih _ _ _
    | setTextMatrix m =>
      cases positions with
      | none =>
        rw [drain_setMatrix_noPos, drain_setMatrix_noPos, List.cons_append]
        exact congrArg _ (ih _ _ _)
      | some e => rw [drain_setMatrix_pos, drain_setMatrix_pos]; exact ih _ _ _
    | textDraw text =>
      cases positions with
      | none =>
        rw [drain_textDraw_noPos, drain_textDraw_noPos, List.cons_append]
        exact congrArg _ (ih _ _ _)
      | some p =>
        rcases hf : params.font with - | ⟨f, sz⟩
        · rw [drain_textDraw_noFont hf, drain_textDraw_noFont hf, List.cons_append]
          exact congrArg _ (ih _ _ _)
        · rw [drain_textDraw_font hf, drain_textDraw_font hf, List.cons_append]
          exact congrArg _ (ih _ _ _)
    | textDrawAdjusted arr =>
      cases positions with
      | none =>
        rw [drain_tdaa_noPos, drain_tdaa_noPos, List.cons_append]
        exact congrArg _ (ih _ _ _)
      | some p =>
        rcases hf : params.font with - | ⟨f, sz⟩
        · rw [drain_tdaa_noFont hf, drain_tdaa_noFont hf, List.cons_append]
          exact congrArg _ (ih _ _ _)
        · rw [drain_tdaa_font hf, drain_tdaa_font hf, List.append_assoc]
          exact congrArg _ (ih _ _ _)

theorem stateAfter_positions_none : ∀ (l : List Op) (params : TextStateParams),
    (∀ o ∈ l, o ≠ Op.beginText) →
    (stateAfter params none l).2 = none := by
  intro l
  induction l with
  | nil => intro params h; rfl
  | cons op t ih =>
    intro params h
    have ht : ∀ o ∈ t, o ≠ Op.beginText := fun o ho => h o (List.mem_cons_of_mem _ ho)
    cases op with
    | charSpacing v => exact ih _ ht
    | wordSpacing v => exact ih _ ht
    | textScaling v => exact ih _ ht
    | leading v => exact ih _ ht
    | textFont n sz => exact ih _ ht
    | textRenderMode m => exact ih _ ht
    | textRise v => exact ih _ ht
    | beginText => exact absurd rfl (h _ (List.mem_cons_self _ _))
    | endText => exact ih _ ht
    | moveTextPosition tr => exact ih _ ht
    | setTextMatrix m => exact ih _ ht
    | textDraw text => exact ih _ ht
    | textDrawAdjusted arr => exact ih _ ht
    | other => exact ih _ ht

/-- Recognizes the `Tf` (set-font) operator. -/
def Op.isTextFontOp : Op → Bool
  | .textFont _ _ => true
  | _ => false

theorem stateAfter_font : ∀ (l : List Op) (params : TextStateParams)
    (positions : Option TextMatrices),
    (∀ o ∈ l, o.isTextFontOp = false) →
    (stateAfter params positions l).1.font = params.font := by
  intro l
  induction l with
  | nil => intro params positions h; rfl
  | cons op t ih =>
    intro params positions h
    have ht : ∀ o ∈ t, o.isTextFontOp = false := fun o ho => h o (List.mem_cons_of_mem _ ho)
    cases op with
    | charSpacing v => exact ih _ _ ht
    | wordSpacing v => exact ih _ _ ht
    | textScaling v => exact ih _ _ ht
    | leading v => exact ih _ _ ht
    | textFont n sz => simp [Op.isTextFontOp] at h
    | textRenderMode m => exact ih _ _ ht
    | textRise v => exact ih _ _ ht
    | beginText => exact ih _ _ ht
    | endText => exact ih _ _ ht
    | moveTextPosition tr =>
      cases positions with
      | none => exact ih _ _ ht
      | some e => exact ih _ _ ht
    | setTextMatrix m =>
      cases positions with
      | none => exact ih _ _ ht
      | some e => exact ih _ _ ht
    | textDraw text => exact ih _ _ ht
    | textDrawAdjusted arr => exact ih _ _ ht
    | other => exact ih _ _ ht

/-- Recognizes the position and draw operators (Td/TD, Tm, Tj, TJ). -/
def Op.isPositionOrDrawOp : Op → Bool
  | .moveTextPosition _ => true
  | .setTextMatrix _ => true
  | .textDraw _ => true
  | .textDrawAdjusted _ => true
  | _ => false

/-- Recognizes the draw operators (Tj, TJ). -/
def Op.isDrawOp : Op → Bool
  | .textDraw _ => true
  | .textDrawAdjusted _ => true
  | _ => false

/-- The bytes of the raw string "hund". -/
def hundBytes : PdfString := [104, 117, 110, 100]

/-- C1: running the text-state machine on the instruction sequence
begin-text, set-font(F,12), move-text-position(10,700), show-text("hund"),
end-text produces exactly one TextDrawEvent, and that event carries
font key F and position (10, 700). -/
theorem C1_single_draw_event (F : Name) :
    ∃ e : TextEntry,
      drain (each_text [Op.beginText, Op.textFont F 12, Op.moveTextPosition ⟨10, 700⟩,
          Op.textDraw hundBytes, Op.endText]) = [Except.ok e] ∧
        e.font = F ∧ e.positions.coordinates = ⟨10, 700⟩ := by
  have hc : (TextMatrices.next_line TextMatrices.default ⟨10, 700⟩).coordinates
      = (⟨10, 700⟩ : Point) := by
    norm_num [TextMatrices.next_line, TextMatrices.coordinates, TextMatrices.default,
      Mat3.identity, Mat3.mul]
  refine ⟨⟨TextMatrices.next_line TextMatrices.default ⟨10, 700⟩, F, hundBytes⟩, ?_, rfl, hc⟩
  simp only [each_text]
  rw [drain_beginText, drain_textFont, drain_move_pos, drain_textDraw_font rfl,
    drain_endText, drain_nil]

/-- Witness for C1 at the concrete font key "F0". -/
theorem C1_single_draw_event_witness :
    ∃ e : TextEntry,
      drain (each_text [Op.beginText, Op.textFont "F0" 12, Op.moveTextPosition ⟨10, 700⟩,
          Op.textDraw hundBytes, Op.endText]) = [Except.ok e] ∧
        e.font = "F0" ∧ e.positions.coordinates = ⟨10, 700⟩ :=
  C1_single_draw_event "F0"

/-- C2: a move-text-position, set-text-matrix, show-text or adjusted
show-text operator encountered before any begin-text yields a text-state
error, and a show-text or adjusted show-text encountered after a begin-text
but before any set-font also yields a text-state error; in both cases the
error is produced exactly at the offending operator's place in the output. -/
theorem C2_text_state_errors :
    (∀ (pre : List Op) (op : Op) (rest : List Op),
        (∀ o ∈ pre, o ≠ Op.beginText) → op.isPositionOrDrawOp = true →
        ∃ (err : TextStateError) (params1 : TextStateParams),
          drain (each_text (pre ++ op :: rest)) =
            drain (each_text pre) ++
              Except.error err :: drain ⟨rest, params1, none, none⟩) ∧
    (∀ (pre mid : List Op) (op : Op) (rest : List Op),
        (∀ o ∈ pre ++ Op.beginText :: mid, o.isTextFontOp = false) → op.isDrawOp = true →
        ∃ (err : TextStateError) (params1 : TextStateParams) (pos1 : Option TextMatrices),
          drain (each_text ((pre ++ Op.beginText :: mid) ++ op :: rest)) =
            drain (each_text (pre ++ Op.beginText :: mid)) ++
              Except.error err :: drain ⟨rest, params1, pos1, none⟩) := by
  constructor
  · intro pre op rest hpre hop
    have hpos : (stateAfter TextStateParams.default none pre).2 = none :=
      stateAfter_positions_none pre _ hpre
    have happ := drain_append pre TextStateParams.default none (op :: rest)
    rw [hpos] at happ
    cases op with
    | moveTextPosition t =>
      refine ⟨.btNotPresentBeforeTd, (stateAfter TextStateParams.default none pre).1, ?_⟩
      rw [drain_move_noPos] at happ
      exact happ
    | setTextMatrix m =>
      refine ⟨.btNotPresentBeforeTm, (stateAfter TextStateParams.default none pre).1, ?_⟩
      rw [drain_setMatrix_noPos] at happ
      exact happ
    | textDraw text =>
      refine ⟨.btNotPresentBeforeTj, (stateAfter TextStateParams.default none pre).1, ?_⟩
      rw [drain_textDraw_noPos] at happ
      exact happ
    | textDrawAdjusted arr =>
      refine ⟨.btNotPresentBeforeTj, (stateAfter TextStateParams.default none pre).1, ?_⟩
      rw [drain_tdaa_noPos] at happ
      exact happ
    | charSpacing v => simp [Op.isPositionOrDrawOp] at hop
    | wordSpacing v => simp [Op.isPositionOrDrawOp] at hop
    | textScaling v => simp [Op.isPositionOrDrawOp] at hop
    | leading v => simp [Op.isPositionOrDrawOp] at hop
    | textFont n sz => simp [Op.isPositionOrDrawOp] at hop
    | textRenderMode m => simp [Op.isPositionOrDrawOp] at hop
    | textRise v => simp [Op.isPositionOrDrawOp] at hop
    | beginText => simp [Op.isPositionOrDrawOp] at hop
    | endText => simp [Op.isPositionOrDrawOp] at hop
    | other => simp [Op.isPositionOrDrawOp] at hop
  · intro pre mid op rest hfonts hop
    have hfont1 : (stateAfter TextStateParams.default none (pre ++ Op.beginText :: mid)).1.font
        = none := by
      rw [stateAfter_font _ _ _ hfonts]
      rfl
    have happ := drain_append (pre ++ Op.beginText :: mid) TextStateParams.default none
      (op :: rest)
    rcases hpos : (stateAfter TextStateParams.default none (pre ++ Op.beginText :: mid)).2
      with - | p
    · rw [hpos] at happ
      cases op with
      | textDraw text =>
        refine ⟨.btNotPresentBeforeTj,
          (stateAfter TextStateParams.default none (pre ++ Op.beginText :: mid)).1, none, ?_⟩
        rw [drain_textDraw_noPos] at happ
        exact happ
      | textDrawAdjusted arr =>
        refine ⟨.btNotPresentBeforeTj,
          (stateAfter TextStateParams.default none (pre ++ Op.beginText :: mid)).1, none, ?_⟩
        rw [drain_tdaa_noPos] at happ
        exact happ
      | charSpacing v => simp [Op.isDrawOp] at hop
      | wordSpacing v => simp [Op.isDrawOp] at hop
      | textScaling v => simp [Op.isDrawOp] at hop
      | leading v => simp [Op.isDrawOp] at hop
      | textFont n sz => simp [Op.isDrawOp] at hop
      | textRenderMode m => simp [Op.isDrawOp] at hop
      | textRise v => simp [Op.isDrawOp] at hop
      | beginText => simp [Op.isDrawOp] at hop
      | endText => simp [Op.isDrawOp] at hop
      | moveTextPosition t => simp [Op.isDrawOp] at hop
      | setTextMatrix m => simp [Op.isDrawOp] at hop
      | other => simp [Op.isDrawOp] at hop
    · rw [hpos] at happ
      cases op with
      | textDraw text =>
        refine ⟨.tfNotPresentBeforeTj,
          (stateAfter TextStateParams.default none (pre ++ Op.beginText :: mid)).1, some p, ?_⟩
        rw [drain_textDraw_noFont hfont1] at happ
        exact happ
      | textDrawAdjusted arr =>
        refine ⟨.tfNotPresentBeforeTj,
          (stateAfter TextStateParams.default none (pre ++ Op.beginText :: mid)).1, some p, ?_⟩
        rw [drain_tdaa_noFont hfont1] at happ
        exact happ
      | charSpacing v => simp [Op.isDrawOp] at hop
      | wordSpacing v => simp [Op.isDrawOp] at hop
      | textScaling v => simp [Op.isDrawOp] at hop
      | leading v => simp [Op.isDrawOp] at hop
      | textFont n sz => simp [Op.isDrawOp] at hop
      | textRenderMode m => simp [Op.isDrawOp] at hop
      | textRise v => simp [Op.isDrawOp] at hop
      | beginText => simp [Op.isDrawOp] at hop
      | endText => simp [Op.isDrawOp] at hop
      | moveTextPosition t => simp [Op.isDrawOp] at hop
      | setTextMatrix m => simp [Op.isDrawOp] at hop
      | other => simp [Op.isDrawOp] at hop

/-- Witness for C2: a bare show-text with no begin-text errors, and a
show-text directly after begin-text with no set-font errors. -/
theorem C2_text_state_errors_witness :
    (∃ (err : TextStateError) (params1 : TextStateParams),
      drain (each_text ([] ++ Op.textDraw hundBytes :: [])) =
        drain (each_text []) ++ Except.error err :: drain ⟨[], params1, none, none⟩) ∧
    (∃ (err : TextStateError) (params1 : TextStateParams) (pos1 : Option TextMatrices),
      drain (each_text (([] ++ Op.beginText :: []) ++ Op.textDraw hundBytes :: [])) =
        drain (each_text ([] ++ Op.beginText :: [])) ++
          Except.error err :: drain ⟨[], params1, pos1, none⟩) :=
  ⟨C2_text_state_errors.1 [] (Op.textDraw hundBytes) [] (by simp) rfl,
   C2_text_state_errors.2 [] [] (Op.textDraw hundBytes) [] (by decide) rfl⟩

/-- C3: an adjusted show-text issued inside a text object with a font set
produces exactly one event per string sub-element of its array, each event
carrying the position snapshot taken when the array instruction began;
numeric adjustment sub-elements produce no events, and the machine continues
with the tracked position unchanged. -/
theorem C3_adjusted_array_events (params : TextStateParams) (p : TextMatrices)
    (f : Name) (sz : ℚ) (hfont : params.font = some (f, sz))
    (arr : List TextDrawAdjusted) (rest : List Op) :
    drain ⟨Op.textDrawAdjusted arr :: rest, params, some p, none⟩ =
      adjustedEvents p f arr ++ drain ⟨rest, params, some p, none⟩ :=
  drain_tdaa_font hfont arr rest p

/-- Witness for C3 on a concrete array with two strings and one adjustment. -/
theorem C3_adjusted_array_events_witness :
    drain ⟨[Op.textDrawAdjusted [.text [65], .spacing 3, .text [66]]],
        { TextStateParams.default with font := some ("F0", 12) },
        some TextMatrices.default, none⟩ =
      adjustedEvents TextMatrices.default "F0" [.text [65], .spacing 3, .text [66]] ++
        drain ⟨[], { TextStateParams.default with font := some ("F0", 12) },
          some TextMatrices.default, none⟩ :=
  C3_adjusted_array_events _ _ _ 12 rfl _ _

/-- C10: an end-text operator encountered while already outside a text
object is accepted without producing an event or an error, leaving the
machine outside a text object; a begin-text encountered while already inside
a text object does not error but replaces the position state with fresh
identity matrices. -/
theorem C10_text_object_reentry :
    (∀ (params : TextStateParams) (rest : List Op),
      drain ⟨Op.endText :: rest, params, none, none⟩ =
        drain ⟨rest, params, none, none⟩) ∧
    (∀ (params : TextStateParams) (m : TextMatrices) (rest : List Op),
      drain ⟨Op.beginText :: rest, params, some m, none⟩ =
        drain ⟨rest, params, some TextMatrices.default, none⟩) ∧
    TextMatrices.default = ⟨Mat3.identity, Mat3.identity⟩ :=
  ⟨fun params rest => drain_endText rest params none,
   fun params m rest => drain_beginText rest params (some m),
   rfl⟩

/-- Witness for C10 at concrete states. -/
theorem C10_text_object_reentry_witness :
    drain ⟨Op.endText :: [], TextStateParams.default, none, none⟩ =
        drain ⟨[], TextStateParams.default, none, none⟩ ∧
      drain ⟨Op.beginText :: [], TextStateParams.default, some TextMatrices.default, none⟩ =
        drain ⟨[], TextStateParams.default, some TextMatrices.default, none⟩ :=
  ⟨C10_text_object_reentry.1 TextStateParams.default [],
   C10_text_object_reentry.2.1 TextStateParams.default TextMatrices.default []⟩

/-- Embedding of the `pdf::font::FontType` subtypes the program can meet. -/
inductive FontType
  | type0
  | type1
  | trueType
  | type3
  | cidFontType0
  | cidFontType2
  deriving DecidableEq

/-- Embedding of `pdf::encoding::BaseEncoding`. -/
inductive BaseEncoding
  | standardEncoding
  | symbolEncoding
  | macRomanEncoding
  | winAnsiEncoding
  | macExpertEncoding
  deriving DecidableEq

/-- Embedding of `pdf::encoding::Encoding`: a base encoding plus explicit
per-code differences (iterated in order when extending the code map). -/
structure PdfEncoding where
  base : BaseEncoding
  differences : List (ℕ × String)
  deriving DecidableEq

/-- The parts of `pdf::font::Font` that `make_unicode_map` in
`src/decode_pdf_string.rs` consults. -/
structure Font where
  name : Option String
  subtype : FontType
  to_unicode : Option (List (ℕ × String))
  encoding : Option PdfEncoding
  deriving DecidableEq

/-- Model of `HashMap<u16, String>` as a partial map from codes to strings. -/
def FontMap := ℕ → Option String

/-- `HashMap::insert`: a later insert overrides an earlier one. -/
def insertCode (m : FontMap) (k : ℕ) (v : String) : FontMap :=
  fun c => if c = k then some v else m c

/-- The map built by inserting the pairs of a list, in order, into an empty
map (a `maplit::hashmap!` literal, a `collect`, or a run of `insert` and
`extend` calls). -/
def mapOfList (l : List (ℕ × String)) : FontMap :=
  l.foldl (fun m kv => insertCode m kv.1 kv.2) fun _ => none

/-- Lookup in an insertion list where the last matching pair wins (the
abstract content of `mapOfList`). -/
def lookupLast : List (ℕ × String) → ℕ → Option String
  | [], _ => none
  | kv :: rest, c =>
    (lookupLast rest c).orElse fun _ => if kv.1 = c then some kv.2 else none

theorem foldl_insertCode (l : List (ℕ × String)) : ∀ (m0 : FontMap) (c : ℕ),
    (l.foldl (fun m kv => insertCode m kv.1 kv.2) m0) c =
      (lookupLast l c).orElse fun _ => m0 c := by
  induction l with
  | nil => intro m0 c; rfl
  | cons kv rest ih =>
    intro m0 c
    rw [List.foldl_cons, ih]
    rcases hl : lookupLast rest c with - | v
    · simp only [lookupLast, hl, Option.orElse, insertCode]
      by_cases hc : kv.1 = c
      · subst hc
        simp
      · have hc' : ¬ c = kv.1 := fun hh => hc hh.symm
        simp [hc, hc']
    · simp [lookupLast, hl, Option.orElse]

theorem mapOfList_lookup (l : List (ℕ × String)) (c : ℕ) :
    mapOfList l c = lookupLast l c := by
  rw [mapOfList, foldl_insertCode]
  rcases hl : lookupLast l c with - | v <;> rfl

theorem lookupLast_append (l1 l2 : List (ℕ × String)) (c : ℕ) :
    lookupLast (l1 ++ l2) c = (lookupLast l2 c).orElse fun _ => lookupLast l1 c := by
  induction l1 with
  | nil =>
    rw [List.nil_append]
    rcases hl : lookupLast l2 c with - | v <;> rfl
  | cons kv rest ih =>
    rw [List.cons_append]
    simp only [lookupLast, ih]
    rcases hl : lookupLast l2 c with - | v
    · rfl
    · rfl

theorem lookupLast_keyed {f : ℕ → String} : ∀ (l : List ℕ) (c : ℕ),
    lookupLast (l.map fun k => (k, f k)) c = if c ∈ l then some (f c) else none := by
  intro l
  induction l with
  | nil => intro c; simp [lookupLast]
  | cons k rest ih =>
    intro c
    rw [List.map_cons]
    simp only [lookupLast, ih]
    by_cases hm : c ∈ rest
    · simp [hm]
    · by_cases hk : k = c
      · subst hk
        simp [hm]
      · have hk' : ¬ c = k := fun hh => hk hh.symm
        simp [hm, hk, hk', Option.orElse]

/-- The hand-authored table for the embedded gaiji font "DXNKCI+GaijiL"
(`src/decode_pdf_string.rs`). -/
def gaijiLTable : List (ℕ × String) :=
  [(65, "ȧ"), (67, "ᒑ"), (68, ";"), (69, "ʃ")]

/-- The hand-authored table for the embedded gaiji font "NZLSMO+GaijiL2". -/
def gaijiL2Table : List (ℕ × String) :=
  [(76, "̩")]

/-- The hand-authored table for the embedded phonetic font
"DXNKCI+Ipa-samdUclphon1SILDoulosL". -/
def ipaTable : List (ℕ × String) :=
  [(4, "ˈ"), (7, "ˌ"), (34, "ə"), (35, "ɑ"), (38, "ð"), (48, "ŋ"), (49, "ɔ"),
   (73, "g"), (80, "n"), (132, "ɹ"), (186, "̩"), (194, "̊"),
   (196, "̈"), (229, "【？】"), (254, "【？】"), (256, "【？】")]

/-- The Latin-1 seed of the WinAnsi fallback in `make_unicode_map`:
`for code in 32..255u8` inserts each code mapped to its character. -/
def winAnsiBasePairs : List (ℕ × String) :=
  (List.range' 32 223).map fun code => (code, (Char.ofNat code).toString)

/-- The fixed overlay of Windows-1252-specific characters inserted after the
Latin-1 seed in `make_unicode_map` (all codes lie in 128–159). -/
def winAnsiOverrides : List (ℕ × String) :=
  [(128, "€"), (130, "‚"), (131, "ƒ"), (132, "„"), (133, "…"), (134, "†"),
   (135, "‡"), (136, "ˆ"), (137, "‰"), (138, "Š"), (139, "‹"), (140, "Œ"),
   (142, "Ž"), (145, "‘"), (146, "’"), (147, "“"), (148, "”"), (149, "•"),
   (150, "–"), (151, "—"), (152, "˜"), (153, "™"), (154, "š"), (155, "›"),
   (158, "ž"), (159, "Ÿ")]

/-- The resolver error (`bail!("Cannot generate ToUnicode map from ...")`,
the spec's `UnsupportedFontError`). -/
inductive FontError
  | cannotGenerateToUnicodeMap
  deriving DecidableEq

/-- `make_unicode_map` from `src/decode_pdf_string.rs`: named overrides for
the three embedded gaiji/phonetic fonts take precedence; otherwise an
embedded to-unicode table is converted directly; otherwise, for a TrueType
font with WinAnsi base encoding, the Latin-1 seed is inserted, then the
Windows-1252 overlay, then the font's differences; otherwise resolution
fails. -/
def make_unicode_map (font : Font) : Except FontError FontMap :=
  match font.name with
  | some "DXNKCI+GaijiL" => .ok (mapOfList gaijiLTable)
  | some "NZLSMO+GaijiL2" => .ok (mapOfList gaijiL2Table)
  | some "DXNKCI+Ipa-samdUclphon1SILDoulosL" => .ok (mapOfList ipaTable)
  | _ =>
    match font.to_unicode with
    | some tu => .ok (mapOfList tu)
    | none =>
      match font.subtype, font.encoding with
      | .trueType, some ⟨.winAnsiEncoding, differences⟩ =>
        .ok (mapOfList (winAnsiBasePairs ++ winAnsiOverrides ++ differences))
      | _, _ => .error .cannotGenerateToUnicodeMap

/-- C4 counterexample: the fixed Windows-1252 overlay that the WinAnsi
fallback applies has 26 entries, not 27 as the claim states. -/
theorem C4_overlay_count_counterexample :
    winAnsiOverrides.length = 26 ∧ winAnsiOverrides.length ≠ 27 :=
  ⟨rfl, by decide⟩

/-- C4 (amended): for a simple (TrueType) font with WinAnsi base encoding,
no embedded to-unicode table and a name outside the hardcoded override set,
resolution succeeds and the resulting table maps each code by trying the
font's differences first, then the fixed overlay of 26 (not 27)
Windows-1252-specific characters, then the Latin-1 seed for codes 32–254;
with no differences, code 65 resolves to "A" and code 128 to "€", and a
differences entry 65 → "Z" makes code 65 resolve to "Z". -/
theorem C4_winansi_fallback_amended :
    ∀ (name : Option String) (diffs : List (ℕ × String)),
      name ≠ some "DXNKCI+GaijiL" → name ≠ some "NZLSMO+GaijiL2" →
      name ≠ some "DXNKCI+Ipa-samdUclphon1SILDoulosL" →
      ∃ m : FontMap,
        make_unicode_map ⟨name, .trueType, none, some ⟨.winAnsiEncoding, diffs⟩⟩ = .ok m ∧
        winAnsiOverrides.length = 26 ∧
        (∀ c, m c = ((lookupLast diffs c).orElse fun _ =>
          (lookupLast winAnsiOverrides c).orElse fun _ =>
            if 32 ≤ c ∧ c < 255 then some (Char.ofNat c).toString else none)) ∧
        (diffs = [] → m 65 = some "A" ∧ m 128 = some "€") ∧
        (lookupLast diffs 65 = some "Z" → m 65 = some "Z") := by
  intro name diffs h1 h2 h3
  have hpt : ∀ c, mapOfList (winAnsiBasePairs ++ winAnsiOverrides ++ diffs) c =
      ((lookupLast diffs c).orElse fun _ =>
        (lookupLast winAnsiOverrides c).orElse fun _ =>
          if 32 ≤ c ∧ c < 255 then some (Char.ofNat c).toString else none) := by
    intro c
    rw [mapOfList_lookup, lookupLast_append, lookupLast_append]
    have hb : lookupLast winAnsiBasePairs c =
        if 32 ≤ c ∧ c < 255 then some (Char.ofNat c).toString else none := by
      rw [winAnsiBasePairs, lookupLast_keyed]
      by_cases hm : c ∈ List.range' 32 223
      · have := List.mem_range'_1.mp hm
        rw [if_pos hm, if_pos (by omega)]
      · have : ¬ (32 ≤ c ∧ c < 255) := fun hc => hm (List.mem_range'_1.mpr (by omega))
        rw [if_neg hm, if_neg this]
    rw [hb]
  refine ⟨mapOfList (winAnsiBasePairs ++ winAnsiOverrides ++ diffs), ?_, rfl, hpt, ?_, ?_⟩
  · rcases name with - | s
    · rfl
    · rw [make_unicode_map]
      split
      · rename_i hn
        have hs : s = "DXNKCI+GaijiL" := by simpa using hn
        have h1' : ¬ s = "DXNKCI+GaijiL" := by simpa using h1
        exact absurd hs h1'
      · rename_i hn
        have hs : s = "NZLSMO+GaijiL2" := by simpa using hn
        have h2' : ¬ s = "NZLSMO+GaijiL2" := by simpa using h2
        exact absurd hs h2'
      · rename_i hn
        have hs : s = "DXNKCI+Ipa-samdUclphon1SILDoulosL" := by simpa using hn
        have h3' : ¬ s = "DXNKCI+Ipa-samdUclphon1SILDoulosL" := by simpa using h3
        exact absurd hs h3'
      · rfl
  · intro hd
    subst hd
    refine ⟨?_, ?_⟩
    · rw [hpt 65]
      decide
    · rw [hpt 128]
      decide
  · intro hz
    rw [hpt 65, hz]
    rfl

/-- Witness for C4 at a concrete font: no special name, differences 65 → "Z". -/
theorem C4_winansi_fallback_amended_witness :
    ∃ m : FontMap,
      make_unicode_map ⟨none, .trueType, none, some ⟨.winAnsiEncoding, [(65, "Z")]⟩⟩ = .ok m ∧
      winAnsiOverrides.length = 26 ∧
      (∀ c, m c = ((lookupLast [(65, "Z")] c).orElse fun _ =>
        (lookupLast winAnsiOverrides c).orElse fun _ =>
          if 32 ≤ c ∧ c < 255 then some (Char.ofNat c).toString else none)) ∧
      ([(65, "Z")] = ([] : List (ℕ × String)) → m 65 = some "A" ∧ m 128 = some "€") ∧
      (lookupLast [(65, "Z")] 65 = some "Z" → m 65 = some "Z") :=
  C4_winansi_fallback_amended none [(65, "Z")] (by simp) (by simp) (by simp)

/-- The decoder errors of `decode_pdf_string` in `src/decode_pdf_string.rs`:
a code absent from the font table (the `map[..]` indexing failure, named
`UnicodeMappingMissingError` by the spec), a trailing odd byte for a 2-byte
font (the `try_into().unwrap()` failure), or an unsupported font subtype
(`bail!("Unsupported font type ...")`). -/
inductive DecodeError
  | unicodeMappingMissing (code : ℕ)
  | oddRawLength
  | unsupportedFontType
  deriving DecidableEq

/-- Look up each code in the font table in order; the first missing code
aborts decoding with `unicodeMappingMissing`. -/
def lookupCodes (map : FontMap) : List ℕ → Except DecodeError (List String)
  | [] => .ok []
  | b :: rest =>
    match map b with
    | none => .error (.unicodeMappingMissing b)
    | some s => (lookupCodes map rest).map fun l => s :: l

/-- Group raw bytes into 2-byte big-endian codes (`chunks(2)` and
`u16::from_be_bytes`); a trailing single byte fails. -/
def bigEndianCodes : List ℕ → Except DecodeError (List ℕ)
  | [] => .ok []
  | [_] => .error .oddRawLength
  | a :: b :: rest => (bigEndianCodes rest).map fun l => (a * 256 + b) :: l

/-- `decode_pdf_string` from `src/decode_pdf_string.rs`: a TrueType (simple)
font consumes the raw bytes one at a time, a Type0 (composite) font consumes
2-byte big-endian codes, any other subtype is rejected; each code is looked
up in the font table. -/
def decode_pdf_string (map : FontMap) (subtype : FontType) (text : PdfString) :
    Except DecodeError (List String) :=
  match subtype with
  | .trueType => lookupCodes map text
  | .type0 =>
    match bigEndianCodes text with
    | .ok codes => lookupCodes map codes
    | .error e => .error e
  | _ => .error .unsupportedFontType

theorem lookupCodes_missing (map : FontMap) : ∀ (l : List ℕ),
    (∃ b ∈ l, map b = none) →
    ∃ c, map c = none ∧ lookupCodes map l = .error (.unicodeMappingMissing c) := by
  intro l
  induction l with
  | nil => rintro ⟨b, hb, -⟩; exact absurd hb (List.not_mem_nil b)
  | cons a t ih =>
    rintro ⟨b, hb, hmiss⟩
    rcases ha : map a with - | s
    · exact ⟨a, ha, by rw [lookupCodes, ha]⟩
    · rcases List.mem_cons.mp hb with rfl | hbt
      · rw [ha] at hmiss
        cases hmiss
      · rcases ih ⟨b, hbt, hmiss⟩ with ⟨c, hc, herr⟩
        refine ⟨c, hc, ?_⟩
        rw [lookupCodes, ha, herr]
        rfl

/-- C5: whenever decoding meets a character code absent from the font table,
it fails hard with `unicodeMappingMissing` (for a simple font the codes are
the raw bytes, for a composite font the 2-byte big-endian codes); it neither
skips the code nor returns partial output. -/
theorem C5_missing_code_is_hard_error :
    (∀ (map : FontMap) (text : PdfString),
      (∃ b ∈ text, map b = none) →
      ∃ c, map c = none ∧
        decode_pdf_string map .trueType text = .error (.unicodeMappingMissing c)) ∧
    (∀ (map : FontMap) (text : PdfString) (codes : List ℕ),
      bigEndianCodes text = .ok codes →
      (∃ c ∈ codes, map c = none) →
      ∃ c, map c = none ∧
        decode_pdf_string map .type0 text = .error (.unicodeMappingMissing c)) := by
  constructor
  · intro map text hex
    exact lookupCodes_missing map text hex
  · intro map text codes hcodes hex
    rcases lookupCodes_missing map codes hex with ⟨c, hc, herr⟩
    refine ⟨c, hc, ?_⟩
    rw [decode_pdf_string, hcodes]
    exact herr

/-- A one-entry font table used for the C5 witness. -/
def oneKeyMap : FontMap := fun c => if c = 65 then some "A" else none

/-- Witness for C5: decoding [65, 66] with a table that only maps 65 fails,
both as a simple font (missing byte code 66) and as a composite font
(missing 2-byte code 65·256+66). -/
theorem C5_missing_code_is_hard_error_witness :
    (∃ c, oneKeyMap c = none ∧
      decode_pdf_string oneKeyMap .trueType [65, 66] =
        .error (.unicodeMappingMissing c)) ∧
    (∃ c, oneKeyMap c = none ∧
      decode_pdf_string oneKeyMap .type0 [65, 66] =
        .error (.unicodeMappingMissing c)) :=
  ⟨C5_missing_code_is_hard_error.1 oneKeyMap [65, 66]
      ⟨66, by decide, by decide⟩,
    C5_missing_code_is_hard_error.2 oneKeyMap [65, 66] [65 * 256 + 66] rfl
      ⟨65 * 256 + 66, by decide, by decide⟩⟩

/-- The leading-run filter of `process_page` in `src/main.rs`:
`skip_while(|e| e.as_ref().map_or(false, |e| e.positions.coordinates().y <= 50.0))`. -/
def isLowRun (e : Except TextStateError TextEntry) : Bool :=
  match e with
  | .ok en => decide (en.positions.coordinates.y ≤ 50)
  | .error _ => false

/-- The new-line test of the grouping loop in `process_page`
(`src/main.rs`): `p.y < last_y - 8.0`, with `last_y` initially `+infinity`
(modelled as `none`). -/
def newLineCond (lastY : Option ℚ) (y : ℚ) : Bool :=
  match lastY with
  | none => true
  | some l => decide (y < l - 8)

/-- `lines.last_mut().push(entry)` from `process_page`; the source's
`expect` on an empty list is unreachable, because the first entry always
takes the new-line branch (`last_y` starts at infinity). -/
def pushLast (lines : List (List TextEntry)) (entry : TextEntry) : List (List TextEntry) :=
  match lines.reverse with
  | [] => []
  | l :: ls => ((l ++ [entry]) :: ls).reverse

/-- The grouping loop of `process_page` from `src/main.rs`: each entry
either starts a new line (updating `last_y`) or is appended to the current
line (leaving `last_y` unchanged); an error entry aborts the page. -/
def assembleLines (lastY : Option ℚ) (lines : List (List TextEntry)) :
    List (Except TextStateError TextEntry) → Except TextStateError (List (List TextEntry))
  | [] => .ok lines
  | .error e :: _ => .error e
  | .ok entry :: rest =>
    if newLineCond lastY entry.positions.coordinates.y then
      assembleLines (some entry.positions.coordinates.y) (lines ++ [[entry]]) rest
    else
      assembleLines lastY (pushLast lines entry) rest

/-- The line-assembly phase of `process_page` from `src/main.rs`: drop the
leading runs inside the header band (y ≤ 50.0), then group the remaining
runs into lines. -/
def process_page_lines (entries : List (Except TextStateError TextEntry)) :
    Except TextStateError (List (List TextEntry)) :=
  assembleLines none [] (entries.dropWhile isLowRun)

/-- A text entry pinned at coordinates (x, y) via an explicit text matrix,
with font key "F0" and a single-space text. -/
def runAt (x y : ℚ) : TextEntry :=
  ⟨TextMatrices.set_matrix TextMatrices.default ⟨1, 0, 0, 1, x, y⟩, "F0", [32]⟩

theorem runAt_coordinates (x y : ℚ) : (runAt x y).positions.coordinates = ⟨x, y⟩ := rfl

/-- C6: in line assembly, all leading runs with y ≤ 50.0 are dropped; a run
at y = 95.0 after one at y = 100.0 joins the same line while a run at
y = 80.0 after one at y = 100.0 starts a new line; in general a new line
starts exactly when y < last_y − 8.0, and last_y is updated only when a new
line starts. -/
theorem C6_line_assembly :
    (process_page_lines [.ok (runAt 0 40), .ok (runAt 0 100), .ok (runAt 0 95)] =
      .ok [[runAt 0 100, runAt 0 95]]) ∧
    (process_page_lines [.ok (runAt 0 100), .ok (runAt 0 80)] =
      .ok [[runAt 0 100], [runAt 0 80]]) ∧
    (∀ (pre rest : List (Except TextStateError TextEntry)),
      (∀ x ∈ pre, isLowRun x = true) → (∀ x ∈ rest.take 1, isLowRun x = false) →
      process_page_lines (pre ++ rest) = process_page_lines rest) ∧
    (∀ (lastY : Option ℚ) (lines : List (List TextEntry)) (e : TextEntry)
        (rest : List (Except TextStateError TextEntry)),
      newLineCond lastY e.positions.coordinates.y = true →
      assembleLines lastY lines (.ok e :: rest) =
        assembleLines (some e.positions.coordinates.y) (lines ++ [[e]]) rest) ∧
    (∀ (lastY : Option ℚ) (lines : List (List TextEntry)) (e : TextEntry)
        (rest : List (Except TextStateError TextEntry)),
      newLineCond lastY e.positions.coordinates.y = false →
      assembleLines lastY lines (.ok e :: rest) =
        assembleLines lastY (pushLast lines e) rest) := by
  refine ⟨?_, ?_, ?_, ?_, ?_⟩
  · norm_num [process_page_lines, List.dropWhile, isLowRun, runAt_coordinates,
      assembleLines, newLineCond, pushLast]
  · norm_num [process_page_lines, List.dropWhile, isLowRun, runAt_coordinates,
      assembleLines, newLineCond, pushLast]
  · intro pre rest hpre hrest
    have hdrop : ∀ (l : List (Except TextStateError TextEntry)),
        (∀ x ∈ l, isLowRun x = true) →
        List.dropWhile isLowRun (l ++ rest) = List.dropWhile isLowRun rest := by
      intro l
      induction l with
      | nil => intro _; rw [List.nil_append]
      | cons a t ih =>
        intro hl
        rw [List.cons_append, List.dropWhile_cons]
        rw [hl a (List.mem_cons_self _ _)]
        exact ih fun x hx => hl x (List.mem_cons_of_mem _ hx)
    have hkeep : List.dropWhile isLowRun rest = rest := by
      cases rest with
      | nil => rfl
      | cons x t =>
        rw [List.dropWhile_cons, hrest x (by simp)]
        simp
    rw [process_page_lines, process_page_lines, hdrop pre hpre, hkeep]
  · intro lastY lines e rest h
    simp [assembleLines, h]
  · intro lastY lines e rest h
    simp [assembleLines, h]

/-- Witness for C6's general clauses at concrete inputs (the first two
clauses are already closed). -/
theorem C6_line_assembly_witness :
    (process_page_lines ([.ok (runAt 0 40)] ++ [.ok (runAt 0 100)]) =
      process_page_lines [.ok (runAt 0 100)]) ∧
    (assembleLines none [] (.ok (runAt 0 100) :: []) =
      assembleLines (some 100) ([] ++ [[runAt 0 100]]) []) ∧
    (assembleLines (some 100) [[runAt 0 100]] (.ok (runAt 0 95) :: []) =
      assembleLines (some 100) (pushLast [[runAt 0 100]] (runAt 0 95)) []) :=
  ⟨C6_line_assembly.2.2.1 [.ok (runAt 0 40)] [.ok (runAt 0 100)]
      (by intro x hx; simp at hx; subst hx; norm_num [isLowRun, runAt_coordinates])
      (by intro x hx; simp at hx; subst hx; norm_num [isLowRun, runAt_coordinates]),
   C6_line_assembly.2.2.2.1 none [] (runAt 0 100) [] (by norm_num [newLineCond, runAt_coordinates]),
   C6_line_assembly.2.2.2.2 (some 100) [[runAt 0 100]] (runAt 0 95) []
      (by norm_num [newLineCond, runAt_coordinates])⟩

/-- The unexpected-x-coordinate error of `not_indented` in `src/main.rs`
(`bail!("Unexpected x coordinates: ...")`, the spec's
`UnexpectedCoordinateError`). -/
inductive CoordinateError
  | unexpectedXCoordinate
  deriving DecidableEq

/-- `not_indented` from `src/main.rs`: `true` means the line starts a new
entry (the x-bucket the spec calls "not indented"); the first match arm
short-circuits on a line whose text is a single space. -/
def not_indented (first_entry : TextEntry) : Except CoordinateError Bool :=
  let x := first_entry.positions.coordinates.x
  if first_entry.text = [32] then .ok false
  else if 70.5 ≤ x ∧ x < 71.5 then .ok true
  else if 80 ≤ x ∧ x < 82.5 then .ok false
  else if 91.5 ≤ x ∧ x < 92.5 then .ok false
  else .error .unexpectedXCoordinate

/-- C7 counterexample: a line whose sole content is a single space, placed
at x = 71 (inside the bucket the spec calls "not indented"), is classified
`false` by `not_indented` — that is, as an indented continuation line — not
`true` ("not indented") as the claim states. -/
theorem C7_space_line_counterexample :
    not_indented (runAt 71 100) = .ok false ∧
      (Except.ok false : Except CoordinateError Bool) ≠ .ok true :=
  ⟨rfl, by simp⟩

/-- C7 (amended): a line whose sole content is a single space is always
classified as indented (`not_indented` returns `false`) regardless of its
x-coordinate — the manual override bypasses the coordinate buckets. -/
theorem C7_space_line_amended (pos : TextMatrices) (f : Name) :
    not_indented ⟨pos, f, [32]⟩ = .ok false := by
  simp [not_indented]

/-- Witness for C7 at a concrete position and font. -/
theorem C7_space_line_amended_witness :
    not_indented ⟨TextMatrices.default, "F0", [32]⟩ = .ok false :=
  C7_space_line_amended TextMatrices.default "F0"

/-- The correction table of `patch` in `src/parse_dictionary.rs`: its match
arms as key/value pairs, in source order. -/
def patchTable : List (String × String) :=
  [
   ("altså [副] [ˈal’sɔ, ˈαl’sɔ] すなわち，それゆえに，したがって，つまり，ようするに；〔話し手の心的態度を表す文副詞〕［意味を強めて］ほんとうに，まったく；［驚きを表して］なんと！；［遺憾，不満，苛立ち；非難・咎めを表して］ほんとうに，いいかげん（に）；［相手の言ったことに対して，相手の計画等の変更を促して］（…ということなのですが，それでもあなたは…するのですか？）；［間投詞的に用いられて，いらだち，非難，没頭など様々な感情を表す（特に話しことばにおいて）］あのねえ！，いいかい！，いやはや！，やれやれ！，これは驚いた！ ",
    "altså [副] [ˈal’sɔ, ˈαl’sɔ]: すなわち，それゆえに，したがって，つまり，ようするに；〔話し手の心的態度を表す文副詞〕［意味を強めて］ほんとうに，まったく；［驚きを表して］なんと！；［遺憾，不満，苛立ち；非難・咎めを表して］ほんとうに，いいかげん（に）；［相手の言ったことに対して，相手の計画等の変更を促して］（…ということなのですが，それでもあなたは…するのですか？）；［間投詞的に用いられて，いらだち，非難，没頭など様々な感情を表す（特に話しことばにおいて）］あのねえ！，いいかい！，いやはや！，やれやれ！，これは驚いた！ "),
   ("Amager [固] [ˈαˌmα;] アマー［地名：コペンハーゲン南部の島．Kastrup空港がある］． ",
    "Amager [固] [ˈαˌmα;]: アマー［地名：コペンハーゲン南部の島．Kastrup空港がある］． "),
   ("Amaliegade [固] [aˈmȧ;ljənˌgȧ:ðə] アメーリェゲーゼ［通り：コペンハーゲン］． ",
    "Amaliegade [固] [aˈmȧ;ljənˌgȧ:ðə]: アメーリェゲーゼ［通り：コペンハーゲン］． "),
   ("Amalienborg [固] [aˈmȧ;ljənˌbɑ̊’] アメーリェンボー［王宮：コペンハーゲン］． ",
    "Amalienborg [固] [aˈmȧ;ljənˌbɑ̊’]: アメーリェンボー［王宮：コペンハーゲン］． "),
   ("De [ˈdi, di] [代] [ˈdi, di], Dem [ˈdæm, dæm], Deres [ˈdȧɹɔs, ˈdȧ:ɔs, dȧɔs]:［人称代名詞２人称単数・複数］［フォーマルな関係の人に対して用いる］あなた，あなた方． ",
    "De [代] [ˈdi, di], Dem [ˈdæm, dæm], Deres [ˈdȧɹɔs, ˈdȧ:ɔs, dȧɔs]:［人称代名詞２人称単数・複数］［フォーマルな関係の人に対して用いる］あなた，あなた方． "),
   ("de [ˈdi, di] [代] [ˈdi, di], dem [ˈdæm, dæm], deres [ˈdȧɹɔs, ˈdȧ:ɔs, dȧɔs]:［人称代名詞３人称複数］彼ら，彼女ら，それら；［不定代名詞］(一般の)人々，みんな；権威，当局；［指示代名詞］［人・動物・もの・ことを指して］あれら(の)，それら(の)；(…する・である)人たち・もの． ",
    "de [代] [ˈdi, di], dem [ˈdæm, dæm], deres [ˈdȧɹɔs, ˈdȧ:ɔs, dȧɔs]:［人称代名詞３人称複数］彼ら，彼女ら，それら；［不定代名詞］(一般の)人々，みんな；権威，当局；［指示代名詞］［人・動物・もの・ことを指して］あれら(の)，それら(の)；(…する・である)人たち・もの． "),
   ("den1 [ˈdæn’, dæn] [代] [ˈdæn’, dæn], dens [ˈdæn(’)s, dæns], det [ˈde, de],  dets [ˈdæds, dæds], de [ˈdi, di], dem [ˈdæm, dæm], deres [ˈdȧɹɔs, ˈdȧ:ɔs, dȧɔs]:［人称代名詞３人称］［すでに述べた動物・もの・ことに参照して］それ；［指示代名詞］［人・動物・もの・ことを指して］あれ，それ；あの，その；前者の；前者． ",
    "den1 [代] [ˈdæn’, dæn], dens [ˈdæn(’)s, dæns], det [ˈde, de],  dets [ˈdæds, dæds], de [ˈdi, di], dem [ˈdæm, dæm], deres [ˈdȧɹɔs, ˈdȧ:ɔs, dȧɔs]:［人称代名詞３人称］［すでに述べた動物・もの・ことに参照して］それ；［指示代名詞］［人・動物・もの・ことを指して］あれ，それ；あの，その；前者の；前者． "),
   ("en2 [数] [ˈe;n] et [ˈed]: 一，1つ，1人，1個 ",
    "en2 [数] [ˈe;n], et [ˈed]: 一，1つ，1人，1個 "),
   ("firsindstyvende [数] [ˈfiɹ’sənsˈty:vənə] 第八十番目の． ",
    "firsindstyvende [数] [ˈfiɹ’sənsˈty:vənə]: 第八十番目の． "),
   ("Frederiksborg Slot [固] [fræðrægsˈbɑ̊;ˈslɔd] フレズレクスボー城［北シェランにある城］ ",
    "Frederiksborg Slot [固] [fræðrægsˈbɑ̊;ˈslɔd]: フレズレクスボー城［北シェランにある城］ "),
   ("græker [名] [ˈgræ;gɔ], grækeren [ˈgræ;gɔɔn], grækere [ˈgræ;gɔɔ],  grækerne [ˈgræ;gɔnə], ギリシア人 ",
    "græker [名] [ˈgræ;gɔ], grækeren [ˈgræ;gɔɔn], grækere [ˈgræ;gɔɔ],  grækerne [ˈgræ;gɔnə]: ギリシア人 "),
   ("halvfemsindstyvende [数] [halˈfæm’sənsˈty:vənə, halˈfæm’sənsˈty:wənə] 第九十番目の． ",
    "halvfemsindstyvende [数] [halˈfæm’sənsˈty:vənə, halˈfæm’sənsˈty:wənə]: 第九十番目の． "),
   ("halvfjerdsindstyvende [数] [halˈfjȧɹsənsˈty:vənə, halˈfjȧɹsənsˈty:wənə] 第七十番目の． ",
    "halvfjerdsindstyvende [数] [halˈfjȧɹsənsˈty:vənə, halˈfjȧɹsənsˈty:wənə]: 第七十番目の． "),
   ("halvtredsindstyvende [数] [ˈtræsənsˈty:vənə, ˈtræsənsˈty:wənə] 第五十番目の． ",
    "halvtredsindstyvende [数] [ˈtræsənsˈty:vənə, ˈtræsənsˈty:wənə]: 第五十番目の． "),
   ("have1 [名] [ˈhȧ:və, ˈhȧ:wə], haven [[ˈhȧ:vən, ˈhȧ:wən], haver [ˈhȧ:vɔ, ˈhȧ:wɔ],  haverne [ˈhȧ:vɔnə, ˈhȧ:wɔnə]: 庭，庭園，公園． ",
    "have1 [名] [ˈhȧ:və, ˈhȧ:wə], haven [ˈhȧ:vən, ˈhȧ:wən], haver [ˈhȧ:vɔ, ˈhȧ:wɔ],  haverne [ˈhȧ:vɔnə, ˈhȧ:wɔnə]: 庭，庭園，公園． "),
   ("hof [名] [ˈhɔf] en, hoffer [ˈhɔfɔ]: デンマークのビール会社カールスベア社 (Carlsberg) のラガービールの愛称． ",
    "hof [名] [ˈhɔf] en, hoffer [ˈhɔfɔ]: デンマークのビール会社カールスベア社 (Carlsberg) のラガービールの愛称． "),
   ("hun [代] [ˈhun, hun] hende [ˈhenə, henə], hendes [ˈhenəs, henəs]:［人称代名詞３人称単数女性］彼女． ",
    "hun [代] [ˈhun, hun], hende [ˈhenə, henə], hendes [ˈhenəs, henəs]:［人称代名詞３人称単数女性］彼女． "),
   ("hvem [代] [ˈvæm’],［所有格］hvis [ˈves]:［疑問代名詞］誰・どの人・どんな人(が・を・に)；［関係代名詞］［人を表す先行詞を受けて］…するところの(人)［現在では，この用法では，hvemが関係節中の主語になることはない］；［先行詞を含む不定関係代名詞］(…する)だれでも，どんな人でも． ",
    "hvem [代] [ˈvæm’], hvis [ˈves]:［疑問代名詞］誰・どの人・どんな人(が・を・に)；［関係代名詞］［人を表す先行詞を受けて］…するところの(人)［現在では，この用法では，hvemが関係節中の主語になることはない］；［先行詞を含む不定関係代名詞］(…する)だれでも，どんな人でも． "),
   ("jeg [代] [ˈjα(ᒑ), jα(ᒑ)] mig [ˈmαᒑ, mα(ᒑ)]:［人称代名詞１人称単数］私，僕． ",
    "jeg [代] [ˈjα(ᒑ), jα(ᒑ)], mig [ˈmαᒑ, mα(ᒑ)]:［人称代名詞１人称単数］私，僕． "),
   ("klejne [名] [ˈklαᒑnə], klejnen [名] [ˈklαᒑnən], klejner [ˈklαᒑnɔ], klejner [ˈklαᒑnɔnə]: クライネ（特にクリスマスの時期に食する，ねじりドーナッツ）． ",
    "klejne [名] [ˈklαᒑnə], klejnen [ˈklαᒑnən], klejner [ˈklαᒑnɔ], klejner [ˈklαᒑnɔnə]: クライネ（特にクリスマスの時期に食する，ねじりドーナッツ）． "),
   ("knuse [動] [ˈknu:sə], knuser [ˈknu;sɔ], knuste [ˈknu:sdə], knust [ˈknu;sd],  knusende [ˈknu:sənə], knus [ˈknu;s]: 壊す，こなごなにする，砕く． ",
    "knuse [動] [ˈknu:sə], knuser [ˈknu;sɔ], knuste [ˈknu:sdə], knust [ˈknu;sd],  knusende [ˈknu:sənə], knus! [ˈknu;s]: 壊す，こなごなにする，砕く． "),
   ("lille [形] [ˈlilə]［性，既知/未知を問わず，名詞の単数形とともに］, små [små;] [性，既知/未知を問わず，名詞の複数形とともに]，mindre [ˈmendrɔ], mindst [ˈmen’sd], mindste [ˈmen’sdə]: 小さな． ",
    "lille [形] [ˈlilə], små [små;], mindre [ˈmendrɔ], mindst [ˈmen’sd], mindste [ˈmen’sdə]: 小さな． "),
   ("Louisiana [固] [luisiˈana] ルイスィアナ美術館［北シェランのホムレベク(Humlebæk) にある美術館］． ",
    "Louisiana [固] [luisiˈana]: ルイスィアナ美術館［北シェランのホムレベク(Humlebæk) にある美術館］． "),
   ("O.k. [間] [ˈåwˈkæᒑ]/[ˈo;ˈkå;]: OK，了解，わかりました ",
    "O.k. [間] [ˈåwˈkæᒑ, ˈo;ˈkå;]: OK，了解，わかりました "),
   ("Samsø [固] [ˈsαmˌsø;] サムスー島． ",
    "Samsø [固] [ˈsαmˌsø;]: サムスー島． "),
   ("snitte [動] [ˈsnidə], snitter [ˈsnidɔ], snittede [ˈsnidəðə], snittet [ˈsnidəð],  snittende [ˈsnidənə], snit!] [ˈsnid]: (木などを)ナイフで少し削る；彫る，刻む；細かく・薄く切る． ",
    "snitte [動] [ˈsnidə], snitter [ˈsnidɔ], snittede [ˈsnidəðə], snittet [ˈsnidəð],  snittende [ˈsnidənə], snit! [ˈsnid]: (木などを)ナイフで少し削る；彫る，刻む；細かく・薄く切る． "),
   ("spændende [形] [ˈsbænənə] [不変化], , mere spændende, mest spændende: 面白い；わくわくする；スリリングな． ",
    "spændende [形] [ˈsbænənə] [不変化], mere spændende, mest spændende: 面白い；わくわくする；スリリングな． "),
   ("tuborg [名] [ˈtuˌbɑ;] en, tuborg [ˈtuˌbɑ;]: かつてはビール会社トゥボー社が生産し，現在はカールスベア社が生産しているラガービールgrøm tuborgの愛称． ",
    "tuborg [名] [ˈtuˌbɑ;] en, tuborg [ˈtuˌbɑ;]: かつてはビール会社トゥボー社が生産し，現在はカールスベア社が生産しているラガービールgrøm tuborgの愛称． "),
   ("varm [形] [ˈvα;m], varmt [ˈvα;md], varme [ˈvα:mə], varmere [ˈvα:mɔɔ],  varmest [ˈvα:məsd], varmeste [ˈvα:məsdə];温かい，暖かい；やや暑い；熱い；思いやりのある，心のこもった． ",
    "varm [形] [ˈvα;m], varmt [ˈvα;md], varme [ˈvα:mə], varmere [ˈvα:mɔɔ],  varmest [ˈvα:məsd], varmeste [ˈvα:məsdə]: 温かい，暖かい；やや暑い；熱い；思いやりのある，心のこもった． "),
   ("vid [形] [ˈvi;ð], vidt [ˈvid], vide [形] [ˈvi:ðə], videre [ˈvi:ðɔɔ, videst [ˈvi:ðəsd],  videste [ˈvi:ðəsdə]: 広い，広大な，広々とした；遠い，遠く離れた． ",
    "vid [形] [ˈvi;ð], vidt [ˈvid], vide [ˈvi:ðə], videre [ˈvi:ðɔɔ], videst [ˈvi:ðəsd],  videste [ˈvi:ðəsdə]: 広い，広大な，広々とした；遠い，遠く離れた． "),
   ("øre1 [名] [ˈø:ɔ], øret [ˈø:ɔð], ører [ˈø:ɔ](/øren [ˈø:ɔn]), ørerne [ˈø:ɔnə]: 耳． ",
    "øre1 [名] [ˈø:ɔ], øret [ˈø:ɔð], ører [ˈø:ɔ]/øren [ˈø:ɔn], ørerne [ˈø:ɔnə]: 耳． ")]

/-- `patch` from `src/parse_dictionary.rs`: substitute a known irregular
entry string by its corrected form (first matching arm), or return the
string unchanged. -/
def patch (s : String) : String :=
  match patchTable.find? fun kv => kv.1 == s with
  | some kv => kv.2
  | none => s

/-- `word.chars().filter(|&c| c == '→').count()` from
`src/parse_dictionary.rs`: the number of cross-reference arrows in a word. -/
def countArrow (w : String) : ℕ :=
  (w.toList.filter fun c => c == '→').length

/-- The grammar-mismatch error of `parse_dictionary`
(`bail!("Could not parse ...")`, the spec's `EntryGrammarMismatchError`),
carrying the offending text. -/
inductive GrammarError
  | entryGrammarMismatch (text : String)
  deriving DecidableEq

/-- The per-entry driver loop of `parse_dictionary` from
`src/parse_dictionary.rs`.  The grammar match itself is performed by the
external `regex` crate, abstracted here as a `captures` function returning
`some` parsed entry on a match of the patched word and `none` otherwise.
A matching word contributes its entry; a non-matching word containing
exactly one cross-reference arrow is silently skipped; any other
non-matching word aborts with the grammar-mismatch error. -/
def parse_dictionary {α : Type} (captures : String → Option α) :
    List String → Except GrammarError (List α)
  | [] => .ok []
  | w :: rest =>
    match captures (patch w) with
    | some entry => (parse_dictionary captures rest).map fun l => entry :: l
    | none =>
      if countArrow w = 1 then parse_dictionary captures rest
      else .error (.entryGrammarMismatch w)

/-- C8: a word that fails the grammar is silently skipped (no entry, no
error) when it contains exactly one cross-reference arrow, and aborts with
the grammar-mismatch error carrying the offending text when it contains
zero or two-or-more arrows. -/
theorem C8_unmatched_entry_dispatch {α : Type} (captures : String → Option α)
    (w : String) (rest : List String) (hmiss : captures (patch w) = none) :
    (countArrow w = 1 →
      parse_dictionary captures (w :: rest) = parse_dictionary captures rest) ∧
    (countArrow w ≠ 1 →
      parse_dictionary captures (w :: rest) =
        .error (.entryGrammarMismatch w)) := by
  constructor
  · intro h1
    simp [parse_dictionary, hmiss, h1]
  · intro h1
    simp [parse_dictionary, hmiss, h1]

/-- Witness for C8 with a never-matching grammar and the word "a→b". -/
theorem C8_unmatched_entry_dispatch_witness :
    (countArrow "a→b" = 1 →
      parse_dictionary (fun _ => (none : Option Unit)) ("a→b" :: []) =
        parse_dictionary (fun _ => (none : Option Unit)) []) ∧
    (countArrow "a→b" ≠ 1 →
      parse_dictionary (fun _ => (none : Option Unit)) ("a→b" :: []) =
        .error (.entryGrammarMismatch "a→b")) :=
  C8_unmatched_entry_dispatch (fun _ => (none : Option Unit)) "a→b" [] rfl

/-- C9: the correction pass is idempotent — every value of the correction
table is left unchanged by `patch`, and hence correcting twice equals
correcting once on every input string. -/
theorem C9_patch_idempotent :
    (∀ kv ∈ patchTable, patch kv.2 = kv.2) ∧ ∀ s, patch (patch s) = patch s := by
  have h1 : ∀ kv ∈ patchTable, patch kv.2 = kv.2 := by
    set_option maxRecDepth 100000 in decide
  refine ⟨h1, ?_⟩
  intro s
  rcases hf : patchTable.find? (fun kv => kv.1 == s) with - | kv
  · simp [patch, hf]
  · have hmem : kv ∈ patchTable := List.mem_of_find?_eq_some hf
    have hval : patch kv.2 = kv.2 := h1 kv hmem
    have hs : patch s = kv.2 := by simp [patch, hf]
    rw [hs, hval]

/-- Witness for C9 at a concrete pair of the correction table. -/
theorem C9_patch_idempotent_witness :
    patch "Samsø [固] [ˈsαmˌsø;]: サムスー島． " = "Samsø [固] [ˈsαmˌsø;]: サムスー島． " :=
  C9_patch_idempotent.1
    ("Samsø [固] [ˈsαmˌsø;] サムスー島． ", "Samsø [固] [ˈsαmˌsø;]: サムスー島． ")
    (by decide)
